import Mathlib

set_option maxRecDepth 40000

/-!
Verification of the signex data-preparation pipeline
(`src/dataprep/preprocess_dataset.py`).

The embedding below translates the pipeline's core into Lean:

* `extract_keypoints` — the 171-value feature-vector builder;
* `augment_mirror_frame` — the value returned by the mirror augmentation,
  and `mirror_input_after_call` — the value held by the *input* array after
  the call (the source assigns through numpy views of its input, so the
  input is modified in place);
* `stepFrame` / `process_video` — the per-frame sliding-window state
  machine (presence test, buffer reset, emission at length 30 with a
  head drop);
* `label_map` / `datasetPairs` — the dataset assembly loop of `main`,
  over a model of the dataset directory (`DirEntry` = one entry of
  `os.listdir`, with its name, whether it is a directory, and the frame
  streams of its videos; a frame stream stands for the per-frame feature
  vectors the detector+builder produce for that video).

Coordinates are embedded as exact rationals. Python's `sorted` on strings
(lexicographic by code point) is embedded by `sortedStrings`, built on a
kernel-computable code-point comparison `strLe`.
-/

/-- Source constant `SEQUENCE_LENGTH = 30`. -/
def SEQUENCE_LENGTH : Nat := 30

/-- Source constant `INPUT_DIM = 171`. -/
def INPUT_DIM : Nat := 171

/-- Source constant `POSE_INDICES = list(range(15))`. -/
def POSE_INDICES : List Nat := List.range 15

/-- A detected landmark point: raw (x, y, z) detector coordinates. -/
structure Landmark where
  x : ℚ
  y : ℚ
  z : ℚ
deriving DecidableEq

/-- The fields of a MediaPipe holistic result consumed by
`extract_keypoints`: each landmark group is optionally present. -/
structure HolisticResults where
  left_hand_landmarks : Option (List Landmark)
  right_hand_landmarks : Option (List Landmark)
  pose_landmarks : Option (List Landmark)
deriving DecidableEq

/-- The flattening loop `for lm in ...: temp.extend([lm.x, lm.y, lm.z])`. -/
def lmCoords (lms : List Landmark) : List ℚ :=
  lms.flatMap (fun lm => [lm.x, lm.y, lm.z])

/-- The local `lh` of `extract_keypoints`: `np.zeros(63)` unless left
hand landmarks are present, in which case their flattened raw coords. -/
def lhBlock (results : HolisticResults) : List ℚ :=
  match results.left_hand_landmarks with
  | some lms => lmCoords lms
  | none => List.replicate 63 0

/-- The local `rh` of `extract_keypoints`, same rule as `lhBlock`. -/
def rhBlock (results : HolisticResults) : List ℚ :=
  match results.right_hand_landmarks with
  | some lms => lmCoords lms
  | none => List.replicate 63 0

/-- The local `pose` of `extract_keypoints`: the landmarks at
`POSE_INDICES`, or `np.zeros(45)`.  The source indexes
`pose_landmarks.landmark[i]`; the embedding reads index `i` with a
default that is never used when at least 15 pose points are present. -/
def poseBlock (results : HolisticResults) : List ℚ :=
  match results.pose_landmarks with
  | some lms => lmCoords (POSE_INDICES.map (fun i => lms.getD i ⟨0, 0, 0⟩))
  | none => List.replicate 45 0

/-- Embedding of `extract_keypoints`:
`np.concatenate([lh, rh, pose])`. -/
def extract_keypoints (results : HolisticResults) : List ℚ :=
  lhBlock results ++ rhBlock results ++ poseBlock results

/-- The numpy assignment `block[:, 0] = 1.0 - block[:, 0]` applied to a
flat block viewed as rows of 3: the first slot of every (x,y,z) triplet
is replaced by `1 - x`. -/
def flipX : List ℚ → List ℚ
  | x :: y :: z :: rest => (1 - x) :: y :: z :: flipX rest
  | l => l

/-- Value *returned* by `augment_mirror_frame`: the flipped old right
block in the left slot, the flipped old left block in the right slot,
then the flipped pose block.  The slices mirror the numpy slices
`[0:63]`, `[63:126]`, `[126:171]`. -/
def augment_mirror_frame (features : List ℚ) : List ℚ :=
  flipX ((features.drop 63).take 63) ++ flipX (features.take 63) ++
    flipX ((features.drop 126).take 45)

/-- Value of the *input* array of `augment_mirror_frame` after the call:
in the source, `lh`, `rh` and `pose` are numpy views of `features`
(`features[0:63].reshape(-1, 3)` etc.; the `features.copy()` stored in
the unused variable `mirrored` is dead), so the column assignments
`lh[:, 0] = 1.0 - lh[:, 0]` flip the x slots of the input in place.
Blocks stay in place; no swap happens on the input itself. -/
def mirror_input_after_call (features : List ℚ) : List ℚ :=
  flipX (features.take 63) ++ flipX ((features.drop 63).take 63) ++
    flipX ((features.drop 126).take 45)

/-- State of the sliding-window loop in `process_video`: the mutable
buffer `frame_window` and the accumulated list `sequences`. -/
structure WinState where
  frame_window : List (List ℚ)
  sequences : List (List (List ℚ))
deriving DecidableEq

/-- The presence test of `process_video`:
`has_left = np.sum(keypoints[0:63]) != 0`,
`has_right = np.sum(keypoints[63:126]) != 0`, combined with `or`. -/
def presence (keypoints : List ℚ) : Bool :=
  decide ((keypoints.take 63).sum ≠ 0) ||
    decide (((keypoints.drop 63).take 63).sum ≠ 0)

/-- One iteration of the frame loop of `process_video`: append on
presence, clear otherwise; then, if the buffer reached
`SEQUENCE_LENGTH`, emit a copy of the buffer and drop its head. -/
def stepFrame (s : WinState) (keypoints : List ℚ) : WinState :=
  let fw := if presence keypoints then s.frame_window ++ [keypoints] else []
  if fw.length = SEQUENCE_LENGTH then
    { frame_window := fw.drop 1, sequences := s.sequences ++ [fw] }
  else
    { frame_window := fw, sequences := s.sequences }

/-- Embedding of `process_video` on the stream of per-frame feature
vectors: fold the frame loop from an empty buffer and no sequences. -/
def process_video (frames : List (List ℚ)) : WinState :=
  frames.foldl stepFrame ⟨[], []⟩

/-- Code-point lexicographic comparison of char lists, the order Python
uses to compare strings. -/
def charListLe : List Char → List Char → Bool
  | [], _ => true
  | _ :: _, [] => false
  | a :: as, b :: bs =>
    if a.toNat < b.toNat then true
    else if b.toNat < a.toNat then false
    else charListLe as bs

/-- Python's string comparison `a <= b` (code-point lexicographic). -/
def strLe (a b : String) : Bool := charListLe a.data b.data

/-- The comparison of `strLe` as a relation, for `List.insertionSort`. -/
def strLeR (a b : String) : Prop := strLe a b = true

instance : DecidableRel strLeR :=
  fun a b => inferInstanceAs (Decidable (strLe a b = true))

/-- Python's `sorted` on a list of strings. -/
def sortedStrings (listing : List String) : List String :=
  List.insertionSort strLeR listing

/-- One entry of the dataset directory listing: its name, whether it is
a directory, and (when it is a class directory) the frame streams of its
videos in listing order. -/
structure DirEntry where
  name : String
  isDir : Bool
  videos : List (List (List ℚ))
deriving DecidableEq

/-- Embedding of `actions = sorted(os.listdir(dataset_path))` followed by
`label_map = {label: num for num, label in enumerate(actions)}`. -/
def label_map (listing : List String) : List (String × Nat) :=
  (sortedStrings listing).enum.map (fun p => (p.2, p.1))

/-- The per-video body of `main`'s loop: the video's sequences are
appended to `X_data` first, and only then does the mirror comprehension
run over those very arrays — so the stored originals end up holding
`mirror_input_after_call` of each frame — followed by the mirrored
sequences built from `augment_mirror_frame`'s returned values. -/
def videoSamples (label : Nat) (video : List (List ℚ)) :
    List (List (List ℚ) × Nat) :=
  let seqs := (process_video video).sequences
  seqs.map (fun s => (s.map mirror_input_after_call, label)) ++
    seqs.map (fun s => (s.map augment_mirror_frame, label))

/-- The per-action body of `main`'s loop: non-directories are skipped
(`if not os.path.isdir(action_path): continue`); otherwise every video
contributes its `videoSamples`. -/
def actionSamples (label : Nat) (e : DirEntry) : List (List (List ℚ) × Nat) :=
  if e.isDir then e.videos.flatMap (videoSamples label) else []

/-- Embedding of `main`'s assembly loop: iterate the sorted listing with
its enumeration index as label (`for action in actions` with
`label_map[action]`), resolve the name back to the listed entry, and
skip names that resolve to non-directories. -/
def datasetPairs (entries : List DirEntry) : List (List (List ℚ) × Nat) :=
  (label_map (entries.map DirEntry.name)).flatMap (fun p =>
    match entries.find? (fun e => e.name == p.1) with
    | some e => actionSamples p.2 e
    | none => [])

/-- The name order on directory entries, used to relate `datasetPairs`
to a sort of the entries themselves. -/
def entryLE (a b : DirEntry) : Prop := strLe a.name b.name = true

instance : DecidableRel entryLE :=
  fun a b => inferInstanceAs (Decidable (strLe a.name b.name = true))

/-- The listing sorted at the level of entries rather than names. -/
def sortEntries (entries : List DirEntry) : List DirEntry :=
  List.insertionSort entryLE entries

/-- Total number of sequences the windower yields over a class's videos. -/
def totalSeqs (e : DirEntry) : Nat :=
  (e.videos.map (fun v => ((process_video v).sequences).length)).sum

/-- A block of `n` copies of the (x, y, z) triplet, for writing expected
feature vectors compactly. -/
def tripleReps (n : Nat) (x y z : ℚ) : List ℚ :=
  (List.replicate n [x, y, z]).flatten

/-- The concrete frame of the spec's worked example: 21 identical left
hand points at (0.2, 0.5, 0.1), no right hand, no pose. -/
def resultsOneLeftHand : HolisticResults :=
  ⟨some (List.replicate 21 ⟨1/5, 1/2, 1/10⟩), none, none⟩

/-- The feature vector the worked-example frame builds to. -/
def exampleFeature : List ℚ := extract_keypoints resultsOneLeftHand

/-- Concrete video: 30 copies of the worked-example feature vector. -/
def vidC1 : List (List ℚ) := List.replicate 30 exampleFeature

/-- Concrete one-class dataset for exercising the assembly loop. -/
def entriesC1 : List DirEntry := [⟨"hello", true, [vidC1]⟩]

/-- A concrete frame with only a left hand detected (x of the first
point 1, everything else 0); 66 slots as produced for a detection with
one present 21-point hand and one present single-point group is not a
real detector shape, but the numpy slicing of `augment_mirror_frame`
accepts any length whose block remainders are multiples of 3, and the
windower accepts any vector, so a 66-slot frame (left block 63 slots,
right block 3 slots) exercises the exact code paths. -/
def gFrame : List ℚ := 1 :: List.replicate 65 0

/-- A concrete 66-slot frame whose left block is zero and whose right
block is (1, 0, 0). -/
def hFrame : List ℚ := List.replicate 63 0 ++ [1, 0, 0]

/-- Concrete 31-frame video: one `gFrame` then 30 `hFrame`s — all
presence-true, so the windower emits two overlapping windows. -/
def vidC5 : List (List ℚ) := gFrame :: List.replicate 30 hFrame

/-- Concrete one-class dataset around `vidC5`. -/
def entriesC5 : List DirEntry := [⟨"hello", true, [vidC5]⟩]

/-- The first window the windower emits on `vidC5`. -/
def seqA : List (List ℚ) := gFrame :: List.replicate 29 hFrame

/-- The second window the windower emits on `vidC5`. -/
def seqB : List (List ℚ) := List.replicate 30 hFrame

/-- Concrete video of 30 presence-true frames. -/
def vidC10 : List (List ℚ) := List.replicate 30 [1, 0, 0]

/-- Concrete dataset listing holding one class directory and one plain
file: `a.txt` sorts before `hello`. -/
def entriesC10 : List DirEntry :=
  [⟨"hello", true, [vidC10]⟩, ⟨"a.txt", false, []⟩]

theorem charListLe_cons (a b : Char) (as bs : List Char) :
    charListLe (a :: as) (b :: bs) = true ↔
      a.toNat < b.toNat ∨ (a.toNat = b.toNat ∧ charListLe as bs = true) := by
  by_cases h1 : a.toNat < b.toNat
  · simp [charListLe, h1]
  · by_cases h2 : b.toNat < a.toNat
    · simp [charListLe, h1, h2]
      omega
    · have h3 : a.toNat = b.toNat := by omega
      simp [charListLe, h1, h2, h3]

theorem charListLe_total : ∀ as bs : List Char,
    charListLe as bs = true ∨ charListLe bs as = true
  | [], _ => Or.inl rfl
  | _ :: _, [] => Or.inr rfl
  | a :: as, b :: bs => by
    rcases Nat.lt_trichotomy a.toNat b.toNat with h | h | h
    · exact Or.inl ((charListLe_cons a b as bs).mpr (Or.inl h))
    · rcases charListLe_total as bs with ih | ih
      · exact Or.inl ((charListLe_cons a b as bs).mpr (Or.inr ⟨h, ih⟩))
      · exact Or.inr ((charListLe_cons b a bs as).mpr (Or.inr ⟨h.symm, ih⟩))
    · exact Or.inr ((charListLe_cons b a bs as).mpr (Or.inl h))

theorem charListLe_trans : ∀ as bs cs : List Char,
    charListLe as bs = true → charListLe bs cs = true →
      charListLe as cs = true
  | [], _, _, _, _ => rfl
  | _ :: _, [], _, h, _ => by simp [charListLe] at h
  | _ :: _, _ :: _, [], _, h => by simp [charListLe] at h
  | a :: as, b :: bs, c :: cs, h1, h2 => by
    rw [charListLe_cons] at h1 h2 ⊢
    rcases h1 with h1 | ⟨e1, r1⟩
    · rcases h2 with h2 | ⟨e2, r2⟩
      · exact Or.inl (by omega)
      · exact Or.inl (by omega)
    · rcases h2 with h2 | ⟨e2, r2⟩
      · exact Or.inl (by omega)
      · exact Or.inr ⟨by omega, charListLe_trans as bs cs r1 r2⟩

theorem charListLe_antisymm : ∀ as bs : List Char,
    charListLe as bs = true → charListLe bs as = true → as = bs
  | [], [], _, _ => rfl
  | [], _ :: _, _, h => by simp [charListLe] at h
  | _ :: _, [], h, _ => by simp [charListLe] at h
  | a :: as, b :: bs, h1, h2 => by
    rw [charListLe_cons] at h1 h2
    have hab : a.toNat = b.toNat := by
      rcases h1 with h1 | ⟨e1, _⟩ <;> rcases h2 with h2 | ⟨e2, _⟩ <;> omega
    have hc : a = b := Char.ext (UInt32.ext hab)
    have ht : as = bs := by
      rcases h1 with h1 | ⟨_, r1⟩
      · omega
      · rcases h2 with h2 | ⟨_, r2⟩
        · omega
        · exact charListLe_antisymm as bs r1 r2
    rw [hc, ht]

instance : IsTotal String strLeR :=
  ⟨fun a b => charListLe_total a.data b.data⟩

instance : IsTrans String strLeR :=
  ⟨fun a b c => charListLe_trans a.data b.data c.data⟩

instance : IsAntisymm String strLeR := by
  constructor
  intro a b h1 h2
  cases a with
  | mk da => cases b with
    | mk db => exact congrArg String.mk (charListLe_antisymm da db h1 h2)

instance : IsTotal DirEntry entryLE :=
  ⟨fun a b => charListLe_total a.name.data b.name.data⟩

instance : IsTrans DirEntry entryLE :=
  ⟨fun a b c => charListLe_trans a.name.data b.name.data c.name.data⟩

theorem flipX_length : ∀ l : List ℚ, (flipX l).length = l.length
  | x :: y :: z :: rest => by simp [flipX, flipX_length rest]
  | [] => rfl
  | [_] => rfl
  | [_, _] => rfl

theorem flipX_flipX : ∀ l : List ℚ, flipX (flipX l) = l
  | x :: y :: z :: rest => by simp [flipX, flipX_flipX rest, sub_sub_cancel]
  | [] => rfl
  | [_] => rfl
  | [_, _] => rfl

theorem lmCoords_length : ∀ lms : List Landmark, (lmCoords lms).length = 3 * lms.length
  | [] => rfl
  | lm :: rest => by
    simp [lmCoords, List.flatMap_cons] at *
    have ih := lmCoords_length rest
    simp [lmCoords] at ih
    omega

theorem map_getD_range : ∀ (lms : List Landmark) (n : Nat), n ≤ lms.length →
    (List.range n).map (fun i => lms.getD i ⟨0, 0, 0⟩) = lms.take n
  | lms, 0, _ => by simp
  | [], n + 1, h => by simp at h
  | x :: t, n + 1, h => by
    rw [List.range_succ_eq_map]
    simp only [List.map_cons, List.map_map, List.getD_cons_zero, List.take_succ_cons]
    have ih := map_getD_range t n (by simpa using h)
    rw [← ih]
    congr 1

/-- C7: `extract_keypoints` is total: for every result (absent groups
included, 21 points per present hand, at least 15 pose points), it
returns exactly 171 values laid out `[Left(63) | Right(63) | Pose(45)]`,
each present block the raw coordinate triplets in detector order (pose
restricted to indices 0..14), each absent block all zeros. -/
theorem extract_keypoints_total (r : HolisticResults)
    (hL : ∀ lms, r.left_hand_landmarks = some lms → lms.length = 21)
    (hR : ∀ lms, r.right_hand_landmarks = some lms → lms.length = 21)
    (hP : ∀ lms, r.pose_landmarks = some lms → 15 ≤ lms.length) :
    (extract_keypoints r).length = INPUT_DIM ∧
    extract_keypoints r = lhBlock r ++ rhBlock r ++ poseBlock r ∧
    (lhBlock r).length = 63 ∧ (rhBlock r).length = 63 ∧
    (poseBlock r).length = 45 ∧
    (∀ lms, r.left_hand_landmarks = some lms → lhBlock r = lmCoords lms) ∧
    (r.left_hand_landmarks = none → lhBlock r = List.replicate 63 0) ∧
    (∀ lms, r.right_hand_landmarks = some lms → rhBlock r = lmCoords lms) ∧
    (r.right_hand_landmarks = none → rhBlock r = List.replicate 63 0) ∧
    (∀ lms, r.pose_landmarks = some lms →
      poseBlock r = lmCoords (lms.take 15)) ∧
    (r.pose_landmarks = none → poseBlock r = List.replicate 45 0) := by
  have hlh : (lhBlock r).length = 63 := by
    cases hc : r.left_hand_landmarks with
    | none => simp [lhBlock, hc]
    | some lms => simp [lhBlock, hc, lmCoords_length, hL lms hc]
  have hrh : (rhBlock r).length = 63 := by
    cases hc : r.right_hand_landmarks with
    | none => simp [rhBlock, hc]
    | some lms => simp [rhBlock, hc, lmCoords_length, hR lms hc]
  have hpose15 : ∀ lms, r.pose_landmarks = some lms →
      poseBlock r = lmCoords (lms.take 15) := by
    intro lms hc
    simp only [poseBlock, hc, POSE_INDICES]
    rw [map_getD_range lms 15 (hP lms hc)]
  have hpose : (poseBlock r).length = 45 := by
    cases hc : r.pose_landmarks with
    | none => simp [poseBlock, hc]
    | some lms =>
      rw [hpose15 lms hc, lmCoords_length]
      have := hP lms hc
      simp [List.length_take]
      omega
  refine ⟨?_, rfl, hlh, hrh, hpose, ?_, ?_, ?_, ?_, hpose15, ?_⟩
  · simp [extract_keypoints, INPUT_DIM, hlh, hrh, hpose]
  · intro lms hc; simp [lhBlock, hc]
  · intro hc; simp [lhBlock, hc]
  · intro lms hc; simp [rhBlock, hc]
  · intro hc; simp [rhBlock, hc]
  · intro hc; simp [poseBlock, hc]

/-- C7 witness: the theorem applied to the concrete one-left-hand frame. -/
theorem extract_keypoints_total_witness :
    (extract_keypoints resultsOneLeftHand).length = INPUT_DIM ∧
    extract_keypoints resultsOneLeftHand = lhBlock resultsOneLeftHand ++
      rhBlock resultsOneLeftHand ++ poseBlock resultsOneLeftHand ∧
    (lhBlock resultsOneLeftHand).length = 63 ∧
    (rhBlock resultsOneLeftHand).length = 63 ∧
    (poseBlock resultsOneLeftHand).length = 45 ∧
    (∀ lms, resultsOneLeftHand.left_hand_landmarks = some lms →
      lhBlock resultsOneLeftHand = lmCoords lms) ∧
    (resultsOneLeftHand.left_hand_landmarks = none →
      lhBlock resultsOneLeftHand = List.replicate 63 0) ∧
    (∀ lms, resultsOneLeftHand.right_hand_landmarks = some lms →
      rhBlock resultsOneLeftHand = lmCoords lms) ∧
    (resultsOneLeftHand.right_hand_landmarks = none →
      rhBlock resultsOneLeftHand = List.replicate 63 0) ∧
    (∀ lms, resultsOneLeftHand.pose_landmarks = some lms →
      poseBlock resultsOneLeftHand = lmCoords (lms.take 15)) ∧
    (resultsOneLeftHand.pose_landmarks = none →
      poseBlock resultsOneLeftHand = List.replicate 45 0) :=
  extract_keypoints_total resultsOneLeftHand
    (by intro lms h; cases h; rfl)
    (by intro lms h; cases h)
    (by intro lms h; cases h)

/-- C2 counterexample: on the spec's worked example the mirror's return
value is NOT `0×63 ++ [0.8,0.5,0.1]×21 ++ 0×45` — the code flips the x
slot of every triplet, zero blocks included, so the absent blocks come
back with x = 1, not 0. -/
theorem mirror_example_counterexample :
    augment_mirror_frame (extract_keypoints resultsOneLeftHand) ≠
      List.replicate 63 0 ++ tripleReps 21 (4/5) (1/2) (1/10) ++
        List.replicate 45 0 := by
  with_unfolding_all exact of_decide_eq_true rfl

/-- C2 (amended): the example frame builds to
`[0.2,0.5,0.1]×21 ++ 0×63 ++ 0×45`, and the mirror's return value on it
is `[1,0,0]×21 ++ [0.8,0.5,0.1]×21 ++ [1,0,0]×15`: the new Left block is
the x-flipped old (zero) Right block, the new Right block is the
x-flipped old Left block, and the zero pose block is x-flipped too. -/
theorem mirror_example_amended :
    extract_keypoints resultsOneLeftHand =
      tripleReps 21 (1/5) (1/2) (1/10) ++ List.replicate 63 0 ++
        List.replicate 45 0 ∧
    augment_mirror_frame (extract_keypoints resultsOneLeftHand) =
      tripleReps 21 1 0 0 ++ tripleReps 21 (4/5) (1/2) (1/10) ++
        tripleReps 15 1 0 0 := by
  constructor
  · with_unfolding_all rfl
  · with_unfolding_all rfl

theorem take_drop_blocks (A B C : List ℚ) (hA : A.length = 63)
    (hB : B.length = 63) (hC : C.length = 45) :
    (A ++ B ++ C).take 63 = A ∧ ((A ++ B ++ C).drop 63).take 63 = B ∧
      ((A ++ B ++ C).drop 126).take 45 = C := by
  refine ⟨?_, ?_, ?_⟩
  · rw [List.append_assoc, List.take_left' hA]
  · rw [List.append_assoc, List.drop_left' hA, List.take_left' hB]
  · have hAB : (A ++ B).length = 126 := by rw [List.length_append, hA, hB]
    rw [List.drop_left' hAB, List.take_of_length_le (le_of_eq hC)]

theorem mirror_frame_involution (f : List ℚ) (h : f.length = 171) :
    augment_mirror_frame (augment_mirror_frame f) = f := by
  have hA : (flipX ((f.drop 63).take 63)).length = 63 := by
    rw [flipX_length]; simp [h]
  have hB : (flipX (f.take 63)).length = 63 := by
    rw [flipX_length]; simp [h]
  have hC : (flipX ((f.drop 126).take 45)).length = 45 := by
    rw [flipX_length]; simp [h]
  obtain ⟨t1, t2, t3⟩ := take_drop_blocks _ _ _ hA hB hC
  show augment_mirror_frame
    (flipX ((f.drop 63).take 63) ++ flipX (f.take 63) ++
      flipX ((f.drop 126).take 45)) = f
  rw [augment_mirror_frame, t1, t2, t3, flipX_flipX, flipX_flipX, flipX_flipX]
  have hdd : (f.drop 63).drop 63 = f.drop 126 := by
    rw [List.drop_drop]
  have htl : (f.drop 126).take 45 = f.drop 126 :=
    List.take_of_length_le (by simp [h])
  rw [htl, List.append_assoc, ← hdd, List.take_append_drop,
    List.take_append_drop]

/-- C4: mirror is an involution on every sequence of 171-value frames
with coordinates in [0, 1], exactly, over exact rational arithmetic
(frame level helper below; the theorem applies it frame by frame). -/
theorem mirror_involution (s : List (List ℚ))
    (hlen : ∀ f ∈ s, f.length = INPUT_DIM)
    (hdom : ∀ f ∈ s, ∀ q ∈ f, 0 ≤ q ∧ q ≤ 1) :
    (s.map augment_mirror_frame).map augment_mirror_frame = s := by
  induction s with
  | nil => rfl
  | cons f t ih =>
    have hf : f.length = INPUT_DIM := hlen f (by simp)
    simp only [List.map_cons, List.cons.injEq]
    constructor
    · exact mirror_frame_involution f hf
    · exact ih (fun g hg => hlen g (by simp [hg]))
        (fun g hg => hdom g (by simp [hg]))

/-- C4 witness: the involution at a concrete all-zero 171-value frame. -/
theorem mirror_involution_witness :
    (([List.replicate 171 (0 : ℚ)].map augment_mirror_frame).map
      augment_mirror_frame) = [List.replicate 171 (0 : ℚ)] :=
  mirror_involution [List.replicate 171 0]
    (by with_unfolding_all exact of_decide_eq_true rfl)
    (by with_unfolding_all exact of_decide_eq_true rfl)

theorem stepFrame_reset (s : WinState) (v : List ℚ)
    (h : presence v = false) : stepFrame s v = ⟨[], s.sequences⟩ := by
  simp [stepFrame, h, SEQUENCE_LENGTH]

theorem stepFrame_fill (s : WinState) (v : List ℚ)
    (h : presence v = true)
    (hlen : s.frame_window.length + 1 ≠ SEQUENCE_LENGTH) :
    stepFrame s v = ⟨s.frame_window ++ [v], s.sequences⟩ := by
  simp [stepFrame, h, hlen]

theorem stepFrame_emit (s : WinState) (v : List ℚ)
    (h : presence v = true)
    (hlen : s.frame_window.length + 1 = SEQUENCE_LENGTH) :
    stepFrame s v = ⟨(s.frame_window ++ [v]).drop 1,
      s.sequences ++ [s.frame_window ++ [v]]⟩ := by
  have : (s.frame_window ++ [v]).length = SEQUENCE_LENGTH := by
    simpa using hlen
  simp [stepFrame, h, this]

theorem foldl_fill (fs : List (List ℚ)) : ∀ (buf : List (List ℚ))
    (out : List (List (List ℚ))),
    buf.length + fs.length < SEQUENCE_LENGTH →
    (∀ v ∈ fs, presence v = true) →
    fs.foldl stepFrame ⟨buf, out⟩ = ⟨buf ++ fs, out⟩ := by
  induction fs with
  | nil => intro buf out _ _; simp
  | cons f t ih =>
    intro buf out h hp
    have hpf : presence f = true := hp f (by simp)
    have hne : buf.length + 1 ≠ SEQUENCE_LENGTH := by
      simp only [List.length_cons, SEQUENCE_LENGTH] at h ⊢
      omega
    rw [List.foldl_cons, stepFrame_fill ⟨buf, out⟩ f hpf hne]
    rw [ih (buf ++ [f]) out
      (by simp only [List.length_append, List.length_cons,
        List.length_nil] at h ⊢; omega)
      (fun v hv => hp v (by simp [hv]))]
    simp

/-- C6: a frame whose LeftHand and RightHand blocks both sum to exactly
zero resets the buffer to empty without emitting; if the buffer is
already empty, the step is a no-op. -/
theorem zero_hands_reset (s : WinState) (v : List ℚ)
    (hL : (v.take 63).sum = 0) (hR : ((v.drop 63).take 63).sum = 0) :
    stepFrame s v = ⟨[], s.sequences⟩ ∧
      (s.frame_window = [] → stepFrame s v = s) := by
  have hp : presence v = false := by simp [presence, hL, hR]
  refine ⟨stepFrame_reset s v hp, fun he => ?_⟩
  rw [stepFrame_reset s v hp, ← he]

/-- C6 witness: a zero frame clears a one-frame buffer and emits
nothing. -/
theorem zero_hands_reset_witness :
    stepFrame ⟨[[(1 : ℚ), 0, 0]], []⟩ [(0 : ℚ), 0, 0] = ⟨[], []⟩ :=
  (zero_hands_reset ⟨[[(1 : ℚ), 0, 0]], []⟩ [(0 : ℚ), 0, 0]
    (by with_unfolding_all rfl) (by with_unfolding_all rfl)).1

/-- C3: from an empty buffer, 29 presence-true frames followed by one
presence-false frame yield no sequences and an empty buffer; 31
presence-true frames yield exactly the two stride-1 overlapping 30-frame
windows, which share 29 of their 30 frames. -/
theorem sliding_window (fs : List (List ℚ)) (h29 : fs.length = 29)
    (hp : ∀ v ∈ fs, presence v = true) :
    (∀ g, presence g = false → process_video (fs ++ [g]) = ⟨[], []⟩) ∧
    (∀ a b, presence a = true → presence b = true →
      (process_video (fs ++ [a, b])).sequences =
        [fs ++ [a], fs.drop 1 ++ [a, b]] ∧
      (fs ++ [a]).length = SEQUENCE_LENGTH ∧
      (fs.drop 1 ++ [a, b]).length = SEQUENCE_LENGTH ∧
      (fs ++ [a]).drop 1 = (fs.drop 1 ++ [a, b]).take 29) := by
  have hfill : fs.foldl stepFrame ⟨[], []⟩ = ⟨fs, []⟩ := by
    have := foldl_fill fs [] [] (by simp [h29, SEQUENCE_LENGTH]) hp
    simpa using this
  constructor
  · intro g hg
    rw [process_video, List.foldl_append, hfill, List.foldl_cons,
      stepFrame_reset ⟨fs, []⟩ g hg]
    rfl
  · intro a b ha hb
    have hstepa : stepFrame ⟨fs, []⟩ a =
        ⟨(fs ++ [a]).drop 1, [] ++ [fs ++ [a]]⟩ :=
      stepFrame_emit ⟨fs, []⟩ a ha (by simp [h29, SEQUENCE_LENGTH])
    have hd1 : (fs ++ [a]).drop 1 = fs.drop 1 ++ [a] :=
      List.drop_append_of_le_length (by omega)
    have hlen1 : (fs.drop 1 ++ [a]).length = 29 := by
      simp [List.length_drop, h29]
    have hstepb : stepFrame ⟨fs.drop 1 ++ [a], [fs ++ [a]]⟩ b =
        ⟨(fs.drop 1 ++ [a] ++ [b]).drop 1,
          [fs ++ [a]] ++ [fs.drop 1 ++ [a] ++ [b]]⟩ :=
      stepFrame_emit ⟨fs.drop 1 ++ [a], [fs ++ [a]]⟩ b hb
        (by simp only [hlen1, SEQUENCE_LENGTH])
    have hassoc : fs.drop 1 ++ [a] ++ [b] = fs.drop 1 ++ [a, b] := by
      simp
    have hseq : (process_video (fs ++ [a, b])).sequences =
        [fs ++ [a], fs.drop 1 ++ [a, b]] := by
      rw [process_video, show fs ++ [a, b] = fs ++ [a] ++ [b] by simp,
        List.foldl_append, List.foldl_append, hfill]
      simp only [List.foldl_cons, List.foldl_nil]
      rw [hstepa, hd1]
      simp only [List.nil_append]
      rw [hstepb, hassoc]
      simp
    refine ⟨hseq, by simp [h29, SEQUENCE_LENGTH],
      by simp [List.length_drop, h29, SEQUENCE_LENGTH], ?_⟩
    rw [hd1, show fs.drop 1 ++ [a, b] = (fs.drop 1 ++ [a]) ++ [b] by simp,
      List.take_left' hlen1]

/-- C3 witness: the two scenarios at concrete frames. -/
theorem sliding_window_witness :
    process_video (List.replicate 29 [(1 : ℚ), 0, 0] ++ [[0, 0, 0]]) =
      ⟨[], []⟩ ∧
    (process_video (List.replicate 29 [(1 : ℚ), 0, 0] ++
        [[1, 0, 0], [1, 0, 0]])).sequences =
      [List.replicate 29 [(1 : ℚ), 0, 0] ++ [[1, 0, 0]],
        (List.replicate 29 [(1 : ℚ), 0, 0]).drop 1 ++
          [[1, 0, 0], [1, 0, 0]]] :=
  ⟨(sliding_window (List.replicate 29 [(1 : ℚ), 0, 0])
      (by with_unfolding_all rfl)
      (by with_unfolding_all exact of_decide_eq_true rfl)).1
    [0, 0, 0] (by with_unfolding_all rfl),
   ((sliding_window (List.replicate 29 [(1 : ℚ), 0, 0])
      (by with_unfolding_all rfl)
      (by with_unfolding_all exact of_decide_eq_true rfl)).2
    [1, 0, 0] [1, 0, 0] (by with_unfolding_all rfl)
      (by with_unfolding_all rfl)).1⟩

theorem windower_invariant (fs : List (List ℚ)) :
    ∀ (buf : List (List ℚ)) (out : List (List (List ℚ))),
    (∀ v ∈ buf, presence v = true) →
    (∀ s ∈ out, ∀ v ∈ s, presence v = true) →
    ∀ s ∈ (fs.foldl stepFrame ⟨buf, out⟩).sequences, ∀ v ∈ s,
      presence v = true := by
  induction fs with
  | nil => intro buf out _ hout; simpa using hout
  | cons f t ih =>
    intro buf out hbuf hout
    rw [List.foldl_cons]
    cases hpf : presence f with
    | false =>
      rw [stepFrame_reset ⟨buf, out⟩ f hpf]
      exact ih [] out (by simp) hout
    | true =>
      have hfw : ∀ v ∈ buf ++ [f], presence v = true := by
        intro v hv
        rcases List.mem_append.mp hv with hv | hv
        · exact hbuf v hv
        · simp only [List.mem_singleton] at hv
          rw [hv]; exact hpf
      by_cases hl : buf.length + 1 = SEQUENCE_LENGTH
      · rw [stepFrame_emit ⟨buf, out⟩ f hpf hl]
        refine ih ((buf ++ [f]).drop 1) (out ++ [buf ++ [f]])
          (fun v hv => hfw v (List.mem_of_mem_drop hv)) ?_
        intro s hs
        rcases List.mem_append.mp hs with hs | hs
        · exact hout s hs
        · simp only [List.mem_singleton] at hs
          rw [hs]; exact hfw
      · rw [stepFrame_fill ⟨buf, out⟩ f hpf hl]
        exact ih (buf ++ [f]) out hfw hout

/-- C9: every frame of every sequence the windower emits satisfies the
presence predicate — no emitted sequence contains a presence-false
frame. -/
theorem emitted_frames_present (frames : List (List ℚ))
    (s : List (List ℚ)) (v : List ℚ)
    (hs : s ∈ (process_video frames).sequences) (hv : v ∈ s) :
    presence v = true :=
  windower_invariant frames [] [] (by simp) (by simp) s hs v hv

/-- C9 witness: the invariant read off a concrete emitted sequence. -/
theorem emitted_frames_present_witness : presence [(1 : ℚ), 0, 0] = true :=
  emitted_frames_present (List.replicate 30 [(1 : ℚ), 0, 0])
    (List.replicate 30 [(1 : ℚ), 0, 0]) [(1 : ℚ), 0, 0]
    (by with_unfolding_all exact of_decide_eq_true rfl)
    (by with_unfolding_all exact of_decide_eq_true rfl)

theorem map_name_orderedInsert (e : DirEntry) : ∀ l : List DirEntry,
    (List.orderedInsert entryLE e l).map DirEntry.name =
      List.orderedInsert strLeR e.name (l.map DirEntry.name)
  | [] => rfl
  | x :: t => by
    simp only [List.orderedInsert, List.map_cons]
    by_cases h : entryLE e x
    · rw [if_pos h, if_pos (show strLeR e.name x.name from h)]
      simp
    · rw [if_neg h, if_neg (show ¬ strLeR e.name x.name from h)]
      simp [map_name_orderedInsert e t]

theorem map_name_sortEntries : ∀ entries : List DirEntry,
    (sortEntries entries).map DirEntry.name =
      sortedStrings (entries.map DirEntry.name)
  | [] => rfl
  | e :: t => by
    rw [show sortEntries (e :: t) =
      List.orderedInsert entryLE e (sortEntries t) from rfl]
    rw [map_name_orderedInsert, map_name_sortEntries t]
    rfl

theorem find_name_eq (a : DirEntry) : ∀ entries : List DirEntry,
    (entries.map DirEntry.name).Nodup → a ∈ entries →
    entries.find? (fun e => e.name == a.name) = some a
  | [], _, ha => by simp at ha
  | x :: t, hnd, ha => by
    simp only [List.map_cons, List.nodup_cons] at hnd
    rcases List.mem_cons.mp ha with rfl | hat
    · rw [List.find?_cons]
      simp
    · have hne : x.name ≠ a.name := by
        intro he
        exact hnd.1 (he ▸ List.mem_map_of_mem DirEntry.name hat)
      rw [List.find?_cons]
      have hb : (x.name == a.name) = false := by
        simp [hne]
      rw [hb]
      exact find_name_eq a t hnd.2 hat

theorem flatMap_map_eq {α β γ : Type} (f : α → β) (g : β → List γ)
    (h : α → List γ) : ∀ l : List α, (∀ a ∈ l, g (f a) = h a) →
    (l.map f).flatMap g = l.flatMap h
  | [], _ => rfl
  | x :: t, hc => by
    simp only [List.map_cons, List.flatMap_cons]
    rw [hc x (by simp), flatMap_map_eq f g h t (fun a ha => hc a (by simp [ha]))]

theorem datasetPairs_eq_sorted (entries : List DirEntry)
    (hnd : (entries.map DirEntry.name).Nodup) :
    datasetPairs entries =
      (sortEntries entries).enum.flatMap (fun p => actionSamples p.1 p.2) := by
  rw [datasetPairs, label_map, ← map_name_sortEntries, List.enum_map,
    List.map_map]
  apply flatMap_map_eq
  intro p hp
  have hmem : p.2 ∈ sortEntries entries := by
    obtain ⟨i, x⟩ := p
    have h := List.mem_enumFrom (by rw [← List.enum_eq_enumFrom]; exact hp)
    rw [h.2.2]
    exact List.getElem_mem _
  have hment : p.2 ∈ entries :=
    ((List.perm_insertionSort entryLE entries).mem_iff).mp hmem
  show (match entries.find? (fun e => e.name == p.2.name) with
    | some e => actionSamples p.1 e
    | none => []) = actionSamples p.1 p.2
  rw [find_name_eq p.2 entries hnd hment]

theorem mem_actionSamples_label (label : Nat) (e : DirEntry) :
    ∀ p ∈ actionSamples label e, p.2 = label := by
  intro p hp
  rw [actionSamples] at hp
  by_cases hd : e.isDir
  · rw [if_pos hd] at hp
    obtain ⟨v, _, hpv⟩ := List.mem_flatMap.mp hp
    simp only [videoSamples] at hpv
    rcases List.mem_append.mp hpv with h | h <;>
      · obtain ⟨s, _, rfl⟩ := List.mem_map.mp h
        rfl
  · rw [if_neg hd] at hp
    simp at hp

theorem filter_enumFrom_flatMap (i : Nat) (e : DirEntry) :
    ∀ (l : List DirEntry) (n : Nat), (i, e) ∈ List.enumFrom n l →
    ((List.enumFrom n l).flatMap (fun p => actionSamples p.1 p.2)).filter
      (fun p => p.2 == i) = actionSamples i e
  | [], n, h => by simp at h
  | x :: t, n, h => by
    rw [List.enumFrom_cons, List.flatMap_cons, List.filter_append]
    rw [List.enumFrom_cons] at h
    rcases List.mem_cons.mp h with he | ht
    · injection he with h1 h2
      subst h1
      subst h2
      have hself : (actionSamples i e).filter (fun p => p.2 == i) =
          actionSamples i e :=
        List.filter_eq_self.mpr (fun p hp => by
          rw [mem_actionSamples_label i e p hp]
          simp)
      have hrest : ((List.enumFrom (i + 1) t).flatMap
          (fun p => actionSamples p.1 p.2)).filter (fun p => p.2 == i) =
          [] := by
        rw [List.filter_eq_nil_iff]
        intro p hp
        obtain ⟨q, hq, hpq⟩ := List.mem_flatMap.mp hp
        have hlabel : p.2 = q.1 := mem_actionSamples_label q.1 q.2 p hpq
        obtain ⟨j, y⟩ := q
        have hge := (List.mem_enumFrom hq).1
        simp only [hlabel]
        simp only [beq_iff_eq]
        omega
      rw [hself, hrest, List.append_nil]
    · have hge := (List.mem_enumFrom ht).1
      have hfirst : (actionSamples n x).filter (fun p => p.2 == i) = [] := by
        rw [List.filter_eq_nil_iff]
        intro p hp
        have hlabel := mem_actionSamples_label n x p hp
        simp only [hlabel, beq_iff_eq]
        omega
      rw [hfirst, List.nil_append]
      exact filter_enumFrom_flatMap i e t (n + 1) ht

theorem videoSamples_length (label : Nat) (video : List (List ℚ)) :
    (videoSamples label video).length =
      2 * ((process_video video).sequences).length := by
  simp only [videoSamples, List.length_append, List.length_map]
  omega

theorem videoSamples_sum (label : Nat) : ∀ vs : List (List (List ℚ)),
    (vs.map (List.length ∘ videoSamples label)).sum =
      2 * (vs.map (fun v => ((process_video v).sequences).length)).sum
  | [] => rfl
  | v :: t => by
    simp only [List.map_cons, List.sum_cons, Function.comp_apply]
    rw [videoSamples_length, videoSamples_sum label t]
    ring

theorem actionSamples_length_dir (label : Nat) (e : DirEntry)
    (hd : e.isDir = true) :
    (actionSamples label e).length = 2 * totalSeqs e := by
  rw [actionSamples, if_pos hd, List.length_flatMap, videoSamples_sum,
    totalSeqs]

/-- C8: if a class directory at sorted rank `i` yields `k` windower
sequences over its videos, the assembled dataset holds exactly `2 * k`
samples carrying label `i`; and the label map of any listing order of
the class names hello, thanks, yes is hello 0, thanks 1, yes 2. -/
theorem augmentation_doubling :
    (∀ (entries : List DirEntry) (i : Nat) (e : DirEntry),
      (entries.map DirEntry.name).Nodup →
      (i, e) ∈ (sortEntries entries).enum → e.isDir = true →
      ((datasetPairs entries).filter (fun p => p.2 == i)).length =
        2 * totalSeqs e) ∧
    (∀ listing : List String, listing.Perm ["hello", "thanks", "yes"] →
      label_map listing = [("hello", 0), ("thanks", 1), ("yes", 2)]) := by
  constructor
  · intro entries i e hnd hmem hd
    rw [datasetPairs_eq_sorted entries hnd, List.enum_eq_enumFrom]
    rw [filter_enumFrom_flatMap i e (sortEntries entries) 0
      (by rw [← List.enum_eq_enumFrom]; exact hmem)]
    exact actionSamples_length_dir i e hd
  · intro listing hperm
    have hsorted : sortedStrings listing = ["hello", "thanks", "yes"] := by
      apply List.eq_of_perm_of_sorted (r := strLeR)
      · exact (List.perm_insertionSort strLeR listing).trans hperm
      · exact List.sorted_insertionSort strLeR listing
      · decide
    rw [label_map, hsorted]
    rfl

/-- C8 witness: the doubling count at the concrete two-entry dataset and
the label map at a shuffled listing of the three class names. -/
theorem augmentation_doubling_witness :
    ((datasetPairs entriesC10).filter (fun p => p.2 == 1)).length =
      2 * totalSeqs ⟨"hello", true, [vidC10]⟩ ∧
    label_map ["yes", "hello", "thanks"] =
      [("hello", 0), ("thanks", 1), ("yes", 2)] :=
  ⟨augmentation_doubling.1 entriesC10 1 ⟨"hello", true, [vidC10]⟩
      (by with_unfolding_all exact of_decide_eq_true rfl)
      (by with_unfolding_all exact of_decide_eq_true rfl) rfl,
    augmentation_doubling.2 ["yes", "hello", "thanks"] (by decide)⟩

theorem flatMap_block {α β : Type} (f : α → List β) :
    ∀ (l : List α) (a : α), a ∈ l →
      ∃ pre post, l.flatMap f = pre ++ f a ++ post
  | [], a, ha => by simp at ha
  | x :: t, a, ha => by
    rcases List.mem_cons.mp ha with rfl | hat
    · exact ⟨[], t.flatMap f, by simp [List.flatMap_cons]⟩
    · obtain ⟨pre, post, hp⟩ := flatMap_block f t a hat
      exact ⟨f x ++ pre, post,
        by simp [List.flatMap_cons, hp, List.append_assoc]⟩

/-- C5 (amended): for each video of a class directory at sorted rank
`i`, the dataset contains — as one contiguous block — first all of that
video's windower sequences in order (stored with their x slots flipped
in place by the augmentation's aliasing), then all of their mirrored
counterparts in the same order.  Mirrored samples follow their video's
originals as a block, not each original individually. -/
theorem dataset_video_blocks (entries : List DirEntry)
    (hnd : (entries.map DirEntry.name).Nodup) (i : Nat) (e : DirEntry)
    (hmem : (i, e) ∈ (sortEntries entries).enum) (hd : e.isDir = true)
    (v : List (List ℚ)) (hv : v ∈ e.videos) :
    ∃ pre post, datasetPairs entries =
      pre ++ ((process_video v).sequences.map
          (fun s => (s.map mirror_input_after_call, i)) ++
        (process_video v).sequences.map
          (fun s => (s.map augment_mirror_frame, i))) ++ post := by
  rw [datasetPairs_eq_sorted entries hnd]
  obtain ⟨pre1, post1, h1⟩ :=
    flatMap_block (fun p => actionSamples p.1 p.2)
      ((sortEntries entries).enum) (i, e) hmem
  rw [show actionSamples (i, e).1 (i, e).2 =
    e.videos.flatMap (videoSamples i) from by
      simp [actionSamples, hd]] at h1
  obtain ⟨pre2, post2, h2⟩ := flatMap_block (videoSamples i) e.videos v hv
  rw [h2] at h1
  refine ⟨pre1 ++ pre2, post2 ++ post1, ?_⟩
  rw [h1]
  simp [videoSamples, List.append_assoc]

/-- C5 witness: the contiguous originals-then-mirrored block of the
concrete one-class, one-video dataset. -/
theorem dataset_video_blocks_witness :
    ∃ pre post, datasetPairs entriesC5 =
      pre ++ ((process_video vidC5).sequences.map
          (fun s => (s.map mirror_input_after_call, 0)) ++
        (process_video vidC5).sequences.map
          (fun s => (s.map augment_mirror_frame, 0))) ++ post :=
  dataset_video_blocks entriesC5
    (by with_unfolding_all exact of_decide_eq_true rfl) 0
    ⟨"hello", true, [vidC5]⟩
    (by with_unfolding_all exact of_decide_eq_true rfl) rfl vidC5
    (by with_unfolding_all exact of_decide_eq_true rfl)

/-- C5 counterexample: on the concrete video `vidC5` the windower emits
the two windows `seqA`, `seqB`, but the assembled dataset is neither the
interleaved list the claim describes (original, its mirror, next
original, its mirror) nor even that interleaving applied to the
x-flipped stored originals: the code appends the whole originals block
first and the whole mirrored block second. -/
theorem dataset_not_interleaved :
    (process_video vidC5).sequences = [seqA, seqB] ∧
    datasetPairs entriesC5 ≠
      [(seqA, 0), (seqA.map augment_mirror_frame, 0),
        (seqB, 0), (seqB.map augment_mirror_frame, 0)] ∧
    datasetPairs entriesC5 ≠
      [(seqA.map mirror_input_after_call, 0),
        (seqA.map augment_mirror_frame, 0),
        (seqB.map mirror_input_after_call, 0),
        (seqB.map augment_mirror_frame, 0)] := by
  refine ⟨by with_unfolding_all rfl,
    by with_unfolding_all exact of_decide_eq_true rfl,
    by with_unfolding_all exact of_decide_eq_true rfl⟩

/-- C1 (code bug): `augment_mirror_frame` does NOT leave its input
unchanged — the blocks it flips are numpy views of the input — so the
original sample stored in the dataset is not the sequence the windower
produced: on the concrete one-video dataset the stored original is the
x-flipped worked-example frame, 30 times, which differs from the
windower's emitted sequence. -/
theorem original_samples_corrupted :
    (process_video vidC1).sequences = [List.replicate 30 exampleFeature] ∧
    (datasetPairs entriesC1).map Prod.fst =
      [(List.replicate 30 exampleFeature).map mirror_input_after_call,
        (List.replicate 30 exampleFeature).map augment_mirror_frame] ∧
    mirror_input_after_call exampleFeature ≠ exampleFeature ∧
    mirror_input_after_call exampleFeature =
      tripleReps 21 (4/5) (1/2) (1/10) ++ tripleReps 21 1 0 0 ++
        tripleReps 15 1 0 0 := by
  refine ⟨by with_unfolding_all rfl, by with_unfolding_all rfl,
    by with_unfolding_all exact of_decide_eq_true rfl,
    by with_unfolding_all rfl⟩

/-- C10: the label map enumerates the sorted listing before the
directory filter, so every listed entry — directory or not — receives a
label-map entry; a non-directory contributes no samples; every label
occurring in the dataset is the sorted rank of a directory; and on the
concrete listing with the plain file `a.txt` before class `hello`, the
file takes rank 0, shifts `hello` to rank 1, and label 0 never occurs in
the dataset even though it is a label-map value. -/
theorem label_map_unfiltered :
    (∀ (entries : List DirEntry) (e : DirEntry), e ∈ entries →
      e.name ∈ (label_map (entries.map DirEntry.name)).map Prod.fst) ∧
    (∀ (label : Nat) (e : DirEntry), e.isDir = false →
      actionSamples label e = []) ∧
    (∀ (entries : List DirEntry) (p : List (List ℚ) × Nat),
      (entries.map DirEntry.name).Nodup → p ∈ datasetPairs entries →
      ∃ e, (p.2, e) ∈ (sortEntries entries).enum ∧ e.isDir = true) ∧
    label_map (entriesC10.map DirEntry.name) =
      [("a.txt", 0), ("hello", 1)] ∧
    (datasetPairs entriesC10).map Prod.snd = [1, 1] := by
  have hnames : ∀ listing : List String,
      (label_map listing).map Prod.fst = sortedStrings listing := by
    intro listing
    rw [label_map, List.map_map]
    exact List.enum_map_snd (sortedStrings listing)
  have hnodir : ∀ (label : Nat) (e : DirEntry), e.isDir = false →
      actionSamples label e = [] := by
    intro label e hd
    rw [actionSamples, if_neg (by simp [hd])]
  refine ⟨?_, hnodir, ?_, by with_unfolding_all rfl,
    by with_unfolding_all rfl⟩
  · intro entries e he
    rw [hnames]
    exact ((List.perm_insertionSort strLeR
        (entries.map DirEntry.name)).mem_iff).mpr
      (List.mem_map_of_mem DirEntry.name he)
  · intro entries p hnd hp
    rw [datasetPairs_eq_sorted entries hnd] at hp
    obtain ⟨q, hq, hpq⟩ := List.mem_flatMap.mp hp
    have hlabel : p.2 = q.1 := mem_actionSamples_label q.1 q.2 p hpq
    refine ⟨q.2, ?_, ?_⟩
    · rw [hlabel]
      exact hq
    · by_contra hdf
      have hdfalse : q.2.isDir = false := by
        cases hisd : q.2.isDir
        · rfl
        · exact absurd hisd hdf
      rw [hnodir q.1 q.2 hdfalse] at hpq
      exact absurd hpq (List.not_mem_nil p)

/-- C10 witness: the general conjuncts applied to the concrete
two-entry listing. -/
theorem label_map_unfiltered_witness :
    ("a.txt" ∈ (label_map (entriesC10.map DirEntry.name)).map Prod.fst) ∧
    actionSamples 0 ⟨"a.txt", false, []⟩ = [] ∧
    (∃ e, ((1 : Nat), e) ∈ (sortEntries entriesC10).enum ∧
      e.isDir = true) :=
  ⟨label_map_unfiltered.1 entriesC10 ⟨"a.txt", false, []⟩
      (by with_unfolding_all exact of_decide_eq_true rfl),
    label_map_unfiltered.2.1 0 ⟨"a.txt", false, []⟩ rfl,
    label_map_unfiltered.2.2.1 entriesC10
      ((List.replicate 30 [1, 0, 0]).map mirror_input_after_call, 1)
      (by with_unfolding_all exact of_decide_eq_true rfl)
      (by with_unfolding_all exact of_decide_eq_true rfl)⟩
